import Mathlib

/-!
Verification of the `module4-plugin` image-transform plugins (blur and mirror)
against their natural-language specification.

The Rust sources are shallowly embedded:
* `u8` buffers are `List Nat` (entries are byte values);
* `usize` arithmetic is `Nat` with an explicit `% 2^64` where the source uses an
  unchecked operation, and an explicit `< 2^64` test where it uses `checked_mul`
  (the target is a 64-bit platform);
* `i32` arithmetic is `Int` with explicit range checks for `try_into` /
  `checked_mul` / `checked_div`, and an explicit two's-complement wrap
  (`wrap_i32`) for the source's unchecked `+` / `*` (release-profile semantics);
* fallible code returns a `RustResult` which distinguishes ordinary `Err`
  returns from Rust panics (`panicked`), because a panic crossing the
  `extern "C"` boundary is not a normal return;
* slice indexing `buf[i]` is embedded as a bounds check that panics out of
  bounds, exactly as in Rust.

External collaborators are modelled at their observable boundary:
* the JSON config decoding (serde_json, an external crate; spec §2 "Config
  Decoder", §1 puts the JSON plumbing out of scope) is modelled by passing the
  decode *outcome* to `process_image`: `none` is a null `params` pointer,
  `some (.error ())` is an invalid-UTF-8 or undecodable string, and
  `some (.ok cfg)` is a successful decode into the plugin's config struct;
* the file system / global-logger state needed by `setup_logger` is modelled by
  a boolean `fsOk` (true iff opening/creating the log file and initializing the
  global logger succeed).
-/

/-- 2^64, the usize modulus of the 64-bit target platform. -/
def USIZE : Nat := 18446744073709551616

/-- `i32::MAX`. -/
def I32MAX : Int := 2147483647

/-- `i32::MIN`. -/
def I32MIN : Int := -2147483648

/-- The plugin-support `Error` enum.  Modelled from the spec: the variants used
by `src/blur_plugin/src/lib.rs` (`Error::OverflowError`, `Error::ErrorValue`,
the `From<TryFromIntError>` conversion used by `?`, and
`Error::LoggerInitError`) are not declared in the snapshot of
`src/plugins_support/src/error.rs` present under `src/`; the spec (§3, §7)
requires a distinguishable overflow error outcome, and the variant names are
taken from their use sites in the blur plugin. -/
inductive Err where
  | OverflowError : Err
  | ErrorValue : String → Err
  | TryFromIntError : Err
  | LoggerInitError : String → Err
deriving DecidableEq, Repr

/-- Outcome of running a piece of Rust code: a normal value, an ordinary
`Err` return, or a panic (which is *not* a normal return and, at the
`extern "C"` boundary, aborts). -/
inductive RustResult (α : Type) where
  | ok : α → RustResult α
  | err : Err → RustResult α
  | panicked : String → RustResult α
deriving DecidableEq, Repr

namespace RustResult

def bind : RustResult α → (α → RustResult β) → RustResult β
  | .ok a, f => f a
  | .err e, _ => .err e
  | .panicked m, _ => .panicked m

instance : Monad RustResult where
  pure := .ok
  bind := RustResult.bind

/-- `x.isErr = true` iff `x` is an ordinary `Err` return. -/
def isErr : RustResult α → Bool
  | .err _ => true
  | _ => false

/-- `x.isPanicked = true` iff `x` is a Rust panic. -/
def isPanicked : RustResult α → Bool
  | .panicked _ => true
  | _ => false

end RustResult

/-- `usize::try_into::<i32>()`: succeeds iff the value fits in `i32`. -/
def tryIntoI32 (n : Nat) : RustResult Int :=
  if (n : Int) ≤ I32MAX then .ok (n : Int) else .err .TryFromIntError

/-- `i32::checked_mul`. -/
def checked_mul_i32 (a b : Int) : Option Int :=
  if I32MIN ≤ a * b ∧ a * b ≤ I32MAX then some (a * b) else none

/-- `i32::checked_div` (Rust division truncates toward zero, `Int.tdiv`). -/
def checked_div_i32 (a b : Int) : Option Int :=
  if b = 0 ∨ (a = I32MIN ∧ b = -1) then none else some (a.tdiv b)

/-- Two's-complement wrap into `i32`, the release-profile semantics of the
source's unchecked `i32` additions. -/
def wrap_i32 (x : Int) : Int := (x + 2147483648) % 4294967296 - 2147483648

/-- `i32 as usize` on a 64-bit platform: sign-extend, i.e. reduce mod 2^64. -/
def cast_i32_usize (x : Int) : Nat := (x % (USIZE : Int)).toNat

/-- `usize::checked_mul` on a 64-bit platform. -/
def checked_mul_usize (a b : Nat) : Option Nat :=
  if a * b < USIZE then some (a * b) else none

/-- Slice read `buf[i]` where `i` is an `i32` cast to `usize`: panics when the
index is out of bounds (a negative `i32` sign-extends far past any real slice
length, so the bounds test below is equivalent for buffers shorter than 2^63
bytes). -/
def read_u8 (buf : List Nat) (i : Int) : RustResult Nat :=
  if 0 ≤ i ∧ i < (buf.length : Int) then .ok (buf.getD i.toNat 0)
  else .panicked "index out of bounds"

/-- Slice write `buf[i] = v`: panics when out of bounds. -/
def write_u8 (buf : List Nat) (i : Nat) (v : Nat) : RustResult (List Nat) :=
  if i < buf.length then .ok (buf.set i v) else .panicked "index out of bounds"

/-- `plugins_support::logger::setup_logger` as defined in
`src/plugins_support/src/logger.rs`: it opens or creates the log file with
`.expect(...)` and installs the global logger with `Builder::init()`, all of
which panic on failure (its own doc comment documents the panics).  `fsOk`
abstracts the external state: true iff the file operation and the global
logger installation succeed.  Note that all three call sites in the repository
(`blur_plugin`, `mirror_plugin`, `image_processor`) pattern-match the call as
if it returned a `Result`, a signature this snapshot does not have; under this
snapshot the failure path is a panic, which an `if let Err` cannot catch. -/
def setup_logger (fsOk : Bool) : RustResult Unit :=
  if fsOk then .ok () else .panicked "Error open log file"

namespace BlurPlugin

/-- The blur plugin's configuration struct (`ConfigTransform` in
`src/blur_plugin/src/lib.rs`). -/
structure ConfigTransform where
  radius : Nat
  step : Nat
  log_level : Option String
deriving DecidableEq, Repr

/-- The source's `match checked_xxx { Some(v) => ..., None => { log;
return Err(Error::OverflowError) } }` pattern. -/
def orOverflow {α : Type} : Option Int → (Int → RustResult α) → RustResult α
  | none, _ => .err .OverflowError
  | some v, f => f v

/-- The column branch of one loop iteration of `blur_rgba`
(src/blur_plugin/src/lib.rs lines 269-280): `index_row = channel + index +
i * len_width_in_byte` (the `channel + index` addition applies the channel
offset a second time, since `index` already contains it), accepted iff it
lies in `[0, buff_len)`.  Acting on the accumulator `sc1` left by the
row-window branch. -/
def blurVert (buf : List Nat) (index c len_width len : Int) (i : Int)
    (sc1 : Nat × Nat) : RustResult (Nat × Nat) :=
  orOverflow (checked_mul_i32 i len_width) fun m2 =>
    if 0 ≤ wrap_i32 (wrap_i32 (c + index) + m2) ∧
        wrap_i32 (wrap_i32 (c + index) + m2) < len then
      read_u8 buf (wrap_i32 (wrap_i32 (c + index) + m2)) >>= fun v =>
        .ok (sc1.1 + v, sc1.2 + 1)
    else .ok sc1

/-- One iteration `i` of the `for i in -radius..=radius` loop body of
`blur_rgba` (src/blur_plugin/src/lib.rs lines 235-280), acting on the
accumulator `(sum, count)`.

`index`, `ip` (= `index_pixel`), `c` (= `channel`), `bpp`
(= `byte_per_pixel`), `w` (= `width`) and `len` (= `buff_len`) are the `i32`
values produced by the conversions at the top of `blur_rgba`; the source's
`let` bindings (`index_column`, `left`, `right`, `index_row`) are inlined.
The source accumulates `sum` in `f64` and `count` in `i32`; both are embedded
as `Nat`: every partial sum is an integer below 2^53 so the `f64` additions
are exact, and `count` is bounded by the number of in-bounds byte offsets,
below `i32::MAX`. -/
def blurStep (buf : List Nat) (index ip c bpp w len : Int) (i : Int)
    (sc : Nat × Nat) : RustResult (Nat × Nat) :=
  orOverflow (checked_mul_i32 (wrap_i32 (i + ip)) bpp) fun m =>
  orOverflow (checked_mul_i32 w bpp) fun len_width_in_byte =>
  orOverflow (checked_div_i32 index len_width_in_byte) fun row =>
  orOverflow (checked_mul_i32 row len_width_in_byte) fun left_base_index =>
  (if wrap_i32 (c + m) ≥ wrap_i32 (left_base_index + c) ∧
      wrap_i32 (c + m) < wrap_i32 (wrap_i32 (left_base_index + len_width_in_byte) + c) ∧
      wrap_i32 (left_base_index + c) ≥ 0 ∧
      wrap_i32 (wrap_i32 (left_base_index + len_width_in_byte) + c) < len ∧
      wrap_i32 (left_base_index + c) <
        wrap_i32 (wrap_i32 (left_base_index + len_width_in_byte) + c) then
    read_u8 buf (wrap_i32 (c + m)) >>= fun v => .ok (sc.1 + v, sc.2 + 1)
  else .ok sc) >>= fun sc1 =>
  blurVert buf index c len_width_in_byte len i sc1

/-- The `for i in -radius..=radius` loop of `blur_rgba`: `fuel` iterations
starting at `i`, threading the `(sum, count)` accumulator and
short-circuiting on error. -/
def blurIter (buf : List Nat) (index ip c bpp w len : Int) :
    Nat → Int → Nat × Nat → RustResult (Nat × Nat)
  | 0, _, sc => .ok sc
  | fuel + 1, i, sc =>
    blurStep buf index ip c bpp w len i sc >>= fun sc' =>
      blurIter buf index ip c bpp w len fuel (i + 1) sc'

/-- `blur_rgba` (src/blur_plugin/src/lib.rs lines 196-285).

The final `sum / count` is computed in the source as
`(sum_f64 / count_f64) as u8`; it is embedded as `Nat` floor division:
`sum` and `count` are integers exactly represented in `f64`, the quotient lies
in `[0, 255]` (a mean of `u8` samples), and because `sum/count` is at distance
at least `1/count > 2^-33` from any integer it is not equal to, the correctly
rounded `f64` quotient truncates to the same value as exact floor division.
When `count = 0` the source computes `0.0 / 0.0 = NaN` and `NaN as u8 = 0`,
which again agrees with Nat's `0 / 0 = 0`. -/
def blur_rgba (buf : List Nat)
    (index_pixel width height byte_per_pixel radius channel : Nat) :
    RustResult (Nat × Nat) :=
  if buf.length ≠ width * height * byte_per_pixel then
    .panicked "assertion failed"
  else if radius = 0 then .err (.ErrorValue "Radius cannot be 0")
  else
    tryIntoI32 index_pixel >>= fun ip =>
    tryIntoI32 radius >>= fun r =>
    tryIntoI32 channel >>= fun c =>
    tryIntoI32 byte_per_pixel >>= fun bpp =>
    tryIntoI32 width >>= fun w =>
    tryIntoI32 buf.length >>= fun len =>
    orOverflow (checked_mul_i32 ip bpp) fun m0 =>
    blurIter buf (wrap_i32 (c + m0)) ip c bpp w len (2 * r + 1).toNat (-r)
      (0, 0) >>= fun sc =>
    .ok (sc.1 / sc.2, cast_i32_usize (wrap_i32 (c + m0)))

/-- One full pass of the blur plugin's `process_image` loop
(src/blur_plugin/src/lib.rs lines 156-172): for every pixel index in row-major
order and every channel, run `blur_rgba` on the *current* buffer and write the
result back immediately (`if let Ok((sum, index)) = result { buf[index] = sum }`
— an `Err` skips the write and continues). -/
def blurPass (width height radius len_image : Nat) (buf : List Nat) :
    RustResult (List Nat) :=
  (List.range len_image).foldlM (fun b ip =>
    (List.range 4).foldlM (fun b2 c =>
      match blur_rgba b2 ip width height 4 radius c with
      | .ok (sum, index) => write_u8 b2 index sum
      | .err _ => .ok b2
      | .panicked msg => .panicked msg) b) buf

/-- The `for _ in 0..step` outer loop. -/
def blurPasses (width height radius step len_image : Nat) (buf : List Nat) :
    RustResult (List Nat) :=
  (List.range step).foldlM (fun b _ => blurPass width height radius len_image b)
    buf

/-- The blur plugin's `process_image` entry point
(src/blur_plugin/src/lib.rs lines 67-183).

`rgba_data = none` models a null buffer pointer; `params` models the decode
outcome of the config C string (see the module comment).  The returned buffer
mirrors the final state of the caller's memory; every validation failure
logs and returns with the buffer untouched.  The `u32 → usize` conversions of
`width` and `height` always succeed on the 64-bit target and are omitted; the
two `usize` `checked_mul`s computing the buffer length are kept.  The `Ok`
buffer returned on the compute path assumes the ABI contract that the caller's
buffer really holds `width*height*4` bytes, since
`slice::from_raw_parts_mut` trusts exactly that. -/
def process_image (width height : Nat) (rgba_data : Option (List Nat))
    (params : Option (Except Unit ConfigTransform)) (fsOk : Bool) :
    RustResult (Option (List Nat)) :=
  match setup_logger fsOk with
  | .panicked m => .panicked m
  | _ =>
    match params with
    | none => .ok rgba_data
    | some (.error _) => .ok rgba_data
    | some (.ok cfg) =>
      match rgba_data with
      | none => .ok none
      | some buf =>
        if width = 0 then .ok (some buf)
        else if height = 0 then .ok (some buf)
        else
          match checked_mul_usize width height with
          | none => .ok (some buf)
          | some len_image =>
            match checked_mul_usize len_image 4 with
            | none => .ok (some buf)
            | some _len_in_pixel =>
              if cfg.radius = 0 then .ok (some buf)
              else if cfg.step = 0 then .ok (some buf)
              else
                match blurPasses width height cfg.radius cfg.step len_image buf with
                | .ok buf' => .ok (some buf')
                | .err e => .err e
                | .panicked msg => .panicked msg

end BlurPlugin

/-- `List.mapIdx` written out by structural recursion (with an explicit start
index), so that its `getD` behaviour is easy to prove. -/
def mapIdxFrom (f : Nat → Nat → Nat) : Nat → List Nat → List Nat
  | _, [] => []
  | n, a :: l => f n a :: mapIdxFrom f (n + 1) l

/-- The index permutation performed by swapping the byte ranges
`[a, a+n)` and `[b, b+n)`: position `j` of the swapped buffer holds the byte
that was at position `swapIdx a b n j`. -/
def swapIdx (a b n j : Nat) : Nat :=
  if a ≤ j ∧ j < a + n then b + (j - a)
  else if b ≤ j ∧ j < b + n then a + (j - b)
  else j

/-- `ptr::swap_nonoverlapping(base.add(a), base.add(b), n)` on a buffer: the
two (disjoint, in-bounds) byte ranges `[a, a+n)` and `[b, b+n)` exchange
contents, everything else is unchanged.  (For overlapping or out-of-bounds
ranges the Rust call is undefined behaviour; every use below is proved, or
checked concretely, to be disjoint and in bounds.) -/
def swapRanges (buf : List Nat) (a b n : Nat) : List Nat :=
  mapIdxFrom (fun j _ => buf.getD (swapIdx a b n j) 0) 0 buf

namespace MirrorPlugin

/-- The mirror plugin's configuration struct (`ConfigTransform` in
`src/mirror_plugin/src/lib.rs`). -/
structure ConfigTransform where
  vertical_flip : Option Bool
  horizontal_flip : Option Bool
  log_level : Option String
deriving DecidableEq, Repr

/-- The vertical-flip block of the mirror plugin's `process_image`
(src/mirror_plugin/src/lib.rs lines 130-163).  `.error buf` models the
`return;` taken when a `checked_mul` fails: the whole entry point returns,
with the buffer in its current (possibly partially flipped) state. -/
def verticalFlip (width height : Nat) (buf : List Nat) :
    Except (List Nat) (List Nat) :=
  match checked_mul_usize width 4 with
  | none => .error buf
  | some row_size =>
    (List.range (height / 2)).foldlM (fun b i =>
      match checked_mul_usize i row_size,
            checked_mul_usize (height - 1 - i) row_size with
      | some top_offset, some bottom_offset =>
        Except.ok (swapRanges b top_offset bottom_offset row_size)
      | _, _ => Except.error b) buf

/-- `let row_start = y * row_size;` from the horizontal-flip loop
(src/mirror_plugin/src/lib.rs line 178): an *unchecked* `usize`
multiplication, which wraps mod 2^64 in release builds. -/
def horizRowStart (y row_size : Nat) : Nat := (y * row_size) % USIZE

/-- The horizontal-flip block of the mirror plugin's `process_image`
(src/mirror_plugin/src/lib.rs lines 164-202).  The pixel-offset
multiplications `x*4` and `(width-1-x)*4` are checked (failure returns from
the entry point), but the row start `y * row_size` and the additions
`row_start + ...` are unchecked and wrap. -/
def horizontalFlip (width height : Nat) (buf : List Nat) :
    Except (List Nat) (List Nat) :=
  match checked_mul_usize width 4 with
  | none => .error buf
  | some row_size =>
    (List.range height).foldlM (fun b y =>
      let row_start := horizRowStart y row_size
      (List.range (width / 2)).foldlM (fun b2 x =>
        match checked_mul_usize x 4, checked_mul_usize (width - 1 - x) 4 with
        | some lo, some ro =>
          Except.ok (swapRanges b2 ((row_start + lo) % USIZE)
            ((row_start + ro) % USIZE) 4)
        | _, _ => Except.error b2) b) buf

/-- The mirror plugin's `process_image` entry point
(src/mirror_plugin/src/lib.rs lines 67-204).  Input modelling as for the blur
plugin.  A `checked_mul` failure inside either flip is a `return;` from the
entry point, so the buffer is returned in whatever state the flip left it;
an early return from the vertical flip also skips the horizontal flip. -/
def process_image (width height : Nat) (rgba_data : Option (List Nat))
    (params : Option (Except Unit ConfigTransform)) (fsOk : Bool) :
    RustResult (Option (List Nat)) :=
  match setup_logger fsOk with
  | .panicked m => .panicked m
  | _ =>
    match params with
    | none => .ok rgba_data
    | some (.error _) => .ok rgba_data
    | some (.ok cfg) =>
      match rgba_data with
      | none => .ok none
      | some buf =>
        if width = 0 then .ok (some buf)
        else if height = 0 then .ok (some buf)
        else
          match (if cfg.vertical_flip = some true
                 then verticalFlip width height buf else .ok buf) with
          | .error b => .ok (some b)
          | .ok b1 =>
            match (if cfg.horizontal_flip = some true
                   then horizontalFlip width height b1 else .ok b1) with
            | .error b2 => .ok (some b2)
            | .ok b2 => .ok (some b2)

end MirrorPlugin

namespace BlurPlugin

/-- The neighbourhood mean described by the specification (§4.3 / claim C2),
defined from the spec's words, for comparison with `blur_rgba`: up to `radius`
samples strictly left and right of the pixel within its row (a sample counts
iff its column stays in `[0, width)`), plus the samples at `±1..=±radius`
whole-row offsets (multiples of `width*4` bytes) from the pixel's channel
byte (a sample counts iff the byte offset stays in `[0, buffer length)`);
the divisor is the number of samples included. -/
def blurSpecValue (buf : List Nat) (width index_pixel channel radius : Nat) :
    Nat :=
  let row := index_pixel / width
  let col := index_pixel % width
  let byte := 4 * index_pixel + channel
  let lefts := (List.range radius).filterMap (fun k =>
    if k + 1 ≤ col then
      some (buf.getD ((row * width + (col - (k + 1))) * 4 + channel) 0)
    else none)
  let rights := (List.range radius).filterMap (fun k =>
    if col + (k + 1) < width then
      some (buf.getD ((row * width + (col + (k + 1))) * 4 + channel) 0)
    else none)
  let ups := (List.range radius).filterMap (fun k =>
    if (k + 1) * (width * 4) ≤ byte then
      some (buf.getD (byte - (k + 1) * (width * 4)) 0)
    else none)
  let downs := (List.range radius).filterMap (fun k =>
    if byte + (k + 1) * (width * 4) < buf.length then
      some (buf.getD (byte + (k + 1) * (width * 4)) 0)
    else none)
  let samples := lefts ++ rights ++ ups ++ downs
  samples.sum / samples.length

/-- The row-window acceptance test of `blur_rgba`, characterised: loop
iteration `j` contributes a same-row sample iff pixel `index_pixel + j` lies
in the same row as `index_pixel` *and* that row is not the bottom row (the
source's `right < buff_len` comparison fails for the whole bottom row). -/
def hIncl (width height index_pixel : Nat) (j : Int) : Bool :=
  ((width * (index_pixel / width) : Nat) ≤ j + index_pixel) &&
  (j + index_pixel < ((width * (index_pixel / width) : Nat) : Int) + width) &&
  (index_pixel / width + 1 < height)

/-- The byte the row-window branch reads at loop iteration `j`:
`channel + (j + index_pixel) * 4`. -/
def hSamp (buf : List Nat) (index_pixel channel : Nat) (j : Int) : Nat :=
  buf.getD (4 * (j + index_pixel) + channel).toNat 0

/-- The byte offset the column branch reads at loop iteration `j`.  Because
the source computes `channel + index + i * len_width_in_byte` and `index`
already contains `channel`, the channel offset is applied twice. -/
def vOff (width index_pixel channel : Nat) (j : Int) : Int :=
  4 * index_pixel + 2 * channel + 4 * width * j

/-- The column-branch acceptance test of `blur_rgba`: the (doubly
channel-shifted) byte offset must lie in `[0, buffer length)`.  Note that
`j = 0` is accepted too: the loop range `-radius..=radius` includes 0. -/
def vIncl (len width index_pixel channel : Nat) (j : Int) : Bool :=
  (0 ≤ vOff width index_pixel channel j) &&
  (vOff width index_pixel channel j < len)

/-- The column-branch sample at loop iteration `j`. -/
def vSamp (buf : List Nat) (width index_pixel channel : Nat) (j : Int) : Nat :=
  buf.getD (vOff width index_pixel channel j).toNat 0

/-- The row-window contribution of one loop iteration of `blur_rgba`,
characterised. -/
def hUpd (buf : List Nat) (width height index_pixel channel : Nat)
    (j : Int) (sc : Nat × Nat) : Nat × Nat :=
  if hIncl width height index_pixel j then
    (sc.1 + hSamp buf index_pixel channel j, sc.2 + 1) else sc

/-- The column contribution of one loop iteration of `blur_rgba`,
characterised. -/
def vUpd (buf : List Nat) (width index_pixel channel : Nat)
    (j : Int) (sc1 : Nat × Nat) : Nat × Nat :=
  if vIncl buf.length width index_pixel channel j then
    (sc1.1 + vSamp buf width index_pixel channel j, sc1.2 + 1) else sc1

/-- What one loop iteration of `blur_rgba` adds to the `(sum, count)`
accumulator, characterised: the row-window sample when `hIncl` accepts, then
the column sample when `vIncl` accepts. -/
def stepUpd (buf : List Nat) (width height index_pixel channel : Nat)
    (j : Int) (sc : Nat × Nat) : Nat × Nat :=
  vUpd buf width index_pixel channel j
    (hUpd buf width height index_pixel channel j sc)

/-- Reference accumulation of `blur_rgba`'s loop: `fuel` iterations starting
at `j`, adding the included row-window and column samples to `(sum, count)`. -/
def windowGo (buf : List Nat) (width height index_pixel channel : Nat) :
    Nat → Int → Nat × Nat → Nat × Nat
  | 0, _, sc => sc
  | fuel + 1, j, sc =>
    windowGo buf width height index_pixel channel fuel (j + 1)
      (stepUpd buf width height index_pixel channel j sc)

/-- The `(sum, count)` pair `blur_rgba` accumulates over its full loop range
`-radius..=radius`, characterised. -/
def blurWindow (buf : List Nat) (width height index_pixel channel radius : Nat) :
    Nat × Nat :=
  windowGo buf width height index_pixel channel (2 * radius + 1)
    (-(radius : Int)) (0, 0)

/-- Column-branch-only reference accumulation (used for the bottom row, where
the row-window branch accepts nothing). -/
def windowGoV (buf : List Nat) (width index_pixel channel : Nat) :
    Nat → Int → Nat × Nat → Nat × Nat
  | 0, _, sc => sc
  | fuel + 1, j, sc =>
    windowGoV buf width index_pixel channel fuel (j + 1)
      (vUpd buf width index_pixel channel j sc)

/-- The column-branch-only `(sum, count)` pair over `-radius..=radius`. -/
def blurWindowV (buf : List Nat) (width index_pixel channel radius : Nat) :
    Nat × Nat :=
  windowGoV buf width index_pixel channel (2 * radius + 1) (-(radius : Int))
    (0, 0)

end BlurPlugin

/-- The 2×2 RGBA test image of the golden vectors: bytes `[0..16)`. -/
def testBuf16 : List Nat :=
  [0, 1, 2, 3, 4, 5, 6, 7, 8, 9, 10, 11, 12, 13, 14, 15]

/-- Two index ranges `[a, a+n)` and `[b, b+m)` are disjoint. -/
def RangesDisj (a n b m : Nat) : Prop := a + n ≤ b ∨ b + m ≤ a

/-- A swap triple `(a, b, n)` stays inside a buffer of length `L`. -/
def TripleInBounds (L : Nat) (p : Nat × Nat × Nat) : Prop :=
  p.1 + p.2.2 ≤ L ∧ p.2.1 + p.2.2 ≤ L

/-- The index permutations of two swap triples commute. -/
def SwapCommutes (p q : Nat × Nat × Nat) : Prop :=
  ∀ j, swapIdx p.1 p.2.1 p.2.2 (swapIdx q.1 q.2.1 q.2.2 j) =
    swapIdx q.1 q.2.1 q.2.2 (swapIdx p.1 p.2.1 p.2.2 j)

/-- The composite index permutation of a list of swap triples, rightmost
(last-applied) swap innermost: position `j` of `applySwaps ps buf` holds the
byte that was at `sigmaList ps j`. -/
def sigmaList : List (Nat × Nat × Nat) → Nat → Nat
  | [], j => j
  | p :: tl, j => swapIdx p.1 p.2.1 p.2.2 (sigmaList tl j)

/-- Apply a list of byte-range swaps in order. -/
def applySwaps (ps : List (Nat × Nat × Nat)) (buf : List Nat) : List Nat :=
  ps.foldl (fun b p => swapRanges b p.1 p.2.1 p.2.2) buf

/-- The swap triples of the mirror vertical flip: row `i` with row
`height-1-i`, for `i < height/2`, each row `width*4` bytes. -/
def vertPairs (width height : Nat) : List (Nat × Nat × Nat) :=
  (List.range (height / 2)).map (fun i =>
    (i * (width * 4), (height - 1 - i) * (width * 4), width * 4))

/-- The swap triples of the mirror horizontal flip: in each row `y`, pixel
`x` with pixel `width-1-x`, for `x < width/2`, 4 bytes each. -/
def horizPairs (width height : Nat) : List (Nat × Nat × Nat) :=
  (List.range height).flatMap (fun y =>
    (List.range (width / 2)).map (fun x =>
      (y * (width * 4) + x * 4, y * (width * 4) + (width - 1 - x) * 4, 4)))

/-! ## Theorems -/

theorem length_mapIdxFrom (f : Nat → Nat → Nat) (n : Nat) (l : List Nat) :
    (mapIdxFrom f n l).length = l.length := by
  induction l generalizing n with
  | nil => rfl
  | cons a tl ih => simp [mapIdxFrom, ih]

theorem getD_mapIdxFrom (f : Nat → Nat → Nat) (n : Nat) (l : List Nat)
    (j : Nat) (hj : j < l.length) :
    (mapIdxFrom f n l).getD j 0 = f (n + j) (l.getD j 0) := by
  induction l generalizing n j with
  | nil => simp at hj
  | cons a tl ih =>
    cases j with
    | zero => simp [mapIdxFrom]
    | succ j =>
      simp only [mapIdxFrom, List.getD_cons_succ]
      rw [ih (n + 1) j (by simpa using hj)]
      ring_nf

theorem length_swapRanges (buf : List Nat) (a b n : Nat) :
    (swapRanges buf a b n).length = buf.length :=
  length_mapIdxFrom _ _ _

theorem getD_swapRanges (buf : List Nat) (a b n j : Nat)
    (hj : j < buf.length) :
    (swapRanges buf a b n).getD j 0 = buf.getD (swapIdx a b n j) 0 := by
  unfold swapRanges
  rw [getD_mapIdxFrom _ _ _ _ hj, Nat.zero_add]

theorem swapIdx_lt {L a b n j : Nat} (h1 : a + n ≤ L) (h2 : b + n ≤ L)
    (hj : j < L) : swapIdx a b n j < L := by
  unfold swapIdx; split_ifs <;> omega

theorem swapIdx_invol {a b n : Nat} (hd : RangesDisj a n b n) (j : Nat) :
    swapIdx a b n (swapIdx a b n j) = j := by
  unfold RangesDisj at hd
  unfold swapIdx; split_ifs <;> omega

theorem swapIdx_comm {a1 b1 n1 a2 b2 n2 : Nat}
    (haa : RangesDisj a1 n1 a2 n2) (hab : RangesDisj a1 n1 b2 n2)
    (hba : RangesDisj b1 n1 a2 n2) (hbb : RangesDisj b1 n1 b2 n2) (j : Nat) :
    swapIdx a1 b1 n1 (swapIdx a2 b2 n2 j) =
      swapIdx a2 b2 n2 (swapIdx a1 b1 n1 j) := by
  unfold RangesDisj at haa hab hba hbb
  unfold swapIdx; split_ifs <;> omega

theorem length_applySwaps (ps : List (Nat × Nat × Nat)) (buf : List Nat) :
    (applySwaps ps buf).length = buf.length := by
  induction ps generalizing buf with
  | nil => rfl
  | cons p tl ih =>
    simp only [applySwaps, List.foldl_cons] at *
    rw [ih, length_swapRanges]

theorem sigmaList_lt (L : Nat) (ps : List (Nat × Nat × Nat))
    (hb : ∀ p ∈ ps, TripleInBounds L p) (j : Nat) (hj : j < L) :
    sigmaList ps j < L := by
  induction ps with
  | nil => simpa [sigmaList]
  | cons p tl ih =>
    have hp := hb p (List.mem_cons_self p tl)
    exact swapIdx_lt hp.1 hp.2
      (ih (fun q hq => hb q (List.mem_cons_of_mem p hq)))

theorem getD_applySwaps (ps : List (Nat × Nat × Nat)) (buf : List Nat)
    (hb : ∀ p ∈ ps, TripleInBounds buf.length p) (j : Nat)
    (hj : j < buf.length) :
    (applySwaps ps buf).getD j 0 = buf.getD (sigmaList ps j) 0 := by
  induction ps generalizing buf with
  | nil => rfl
  | cons p tl ih =>
    have hswlen : (swapRanges buf p.1 p.2.1 p.2.2).length = buf.length :=
      length_swapRanges _ _ _ _
    have hb' : ∀ q ∈ tl, TripleInBounds (swapRanges buf p.1 p.2.1 p.2.2).length q := by
      rw [hswlen]; exact fun q hq => hb q (List.mem_cons_of_mem p hq)
    have hstep := ih (swapRanges buf p.1 p.2.1 p.2.2) hb' (by rwa [hswlen])
    simp only [applySwaps, List.foldl_cons] at hstep ⊢
    rw [hstep, getD_swapRanges _ _ _ _ _
      (sigmaList_lt buf.length tl
        (fun q hq => hb q (List.mem_cons_of_mem p hq)) j hj), sigmaList]

theorem sigmaList_swap_comm {p : Nat × Nat × Nat}
    {tl : List (Nat × Nat × Nat)} (hc : ∀ q ∈ tl, SwapCommutes p q) (j : Nat) :
    swapIdx p.1 p.2.1 p.2.2 (sigmaList tl j) =
      sigmaList tl (swapIdx p.1 p.2.1 p.2.2 j) := by
  induction tl generalizing j with
  | nil => rfl
  | cons q tl ih =>
    simp only [sigmaList]
    rw [hc q (List.mem_cons_self q tl) (sigmaList tl j),
      ih (fun q' hq' => hc q' (List.mem_cons_of_mem q hq'))]

theorem sigmaList_invol {ps : List (Nat × Nat × Nat)}
    (hd : ∀ p ∈ ps, RangesDisj p.1 p.2.2 p.2.1 p.2.2)
    (hc : ∀ p ∈ ps, ∀ q ∈ ps, SwapCommutes p q) (j : Nat) :
    sigmaList ps (sigmaList ps j) = j := by
  induction ps generalizing j with
  | nil => rfl
  | cons p tl ih =>
    simp only [sigmaList]
    rw [sigmaList_swap_comm
        (fun q hq => hc p (List.mem_cons_self p tl) q (List.mem_cons_of_mem p hq)),
      swapIdx_invol (hd p (List.mem_cons_self p tl)),
      ih (fun q hq => hd q (List.mem_cons_of_mem p hq))
        (fun q hq q' hq' => hc q (List.mem_cons_of_mem p hq) q'
          (List.mem_cons_of_mem p hq'))]

theorem applySwaps_invol {ps : List (Nat × Nat × Nat)} {buf : List Nat}
    (hb : ∀ p ∈ ps, TripleInBounds buf.length p)
    (hd : ∀ p ∈ ps, RangesDisj p.1 p.2.2 p.2.1 p.2.2)
    (hc : ∀ p ∈ ps, ∀ q ∈ ps, SwapCommutes p q) :
    applySwaps ps (applySwaps ps buf) = buf := by
  have hlen : (applySwaps ps (applySwaps ps buf)).length = buf.length := by
    rw [length_applySwaps, length_applySwaps]
  refine List.ext_getElem hlen (fun n h1 h2 => ?_)
  have hb1 : ∀ p ∈ ps, TripleInBounds (applySwaps ps buf).length p := by
    rw [length_applySwaps]; exact hb
  have hn : n < buf.length := by rwa [length_applySwaps, length_applySwaps] at h1
  have hn1 : n < (applySwaps ps buf).length := by rwa [length_applySwaps]
  rw [← List.getD_eq_getElem _ 0 h1, ← List.getD_eq_getElem _ 0 h2,
    getD_applySwaps ps (applySwaps ps buf) hb1 n hn1,
    getD_applySwaps ps buf hb (sigmaList ps n)
      (by have := sigmaList_lt (applySwaps ps buf).length ps hb1 n hn1
          rwa [length_applySwaps] at this),
    sigmaList_invol hd hc]

/-- **C1** (golden blur vector): the blur plugin's `process_image` on the 2×2
RGBA buffer `[0..16)` with config `radius = 2`, `step = 1` (the decode of
`{"radius":2,"step":1}`) yields exactly
`[3,4,6,7,5,7,5,7,5,8,8,9,8,9,4,7]`, matching `test_blur_image`. -/
theorem blur_process_image_golden_vector :
    BlurPlugin.process_image 2 2 (some testBuf16)
      (some (.ok ⟨2, 1, none⟩)) true =
      .ok (some [3, 4, 6, 7, 5, 7, 5, 7, 5, 8, 8, 9, 8, 9, 4, 7]) := by
  decide

/-- **C5** (golden mirror vectors): on the 2×2 RGBA buffer `[0..16)`, the
mirror plugin with `vertical_flip = true, horizontal_flip = false` yields
`[8..16) ++ [0..8)`, and with the flags swapped yields the per-row pixel
exchange, matching `test_mirror_image_vertical` / `test_mirror_image_horizontal`. -/
theorem mirror_process_image_golden_vectors :
    MirrorPlugin.process_image 2 2 (some testBuf16)
      (some (.ok ⟨some true, some false, none⟩)) true =
      .ok (some [8, 9, 10, 11, 12, 13, 14, 15, 0, 1, 2, 3, 4, 5, 6, 7]) ∧
    MirrorPlugin.process_image 2 2 (some testBuf16)
      (some (.ok ⟨some false, some true, none⟩)) true =
      .ok (some [4, 5, 6, 7, 0, 1, 2, 3, 12, 13, 14, 15, 8, 9, 10, 11]) := by
  constructor <;> decide

/-- **C7**: `blur_rgba` on the 2×2 buffer with `radius = i32::MAX` is rejected
with the distinguishable `Error::OverflowError` (the first loop iteration's
`(i + index_pixel).checked_mul(byte_per_pixel)` overflows `i32`), matching
`test_blur_rgba_overflow`. -/
theorem blur_rgba_radius_i32_max_overflow :
    BlurPlugin.blur_rgba testBuf16 0 2 2 4 2147483647 0 =
      .err .OverflowError := by
  decide

/-- **C4** (failing input): with the `setup_logger` of
`src/plugins_support/src/logger.rs`, a failure to open/create the log file (or
to install the global logger) is a panic via `.expect(...)` / `init()`, not a
normal return, and neither plugin catches unwind at the `extern "C"`
boundary — so the panic propagates out of `process_image` in both plugins,
even on an otherwise perfectly valid input. -/
theorem process_image_logger_failure_is_a_panic :
    BlurPlugin.process_image 2 2 (some testBuf16) (some (.ok ⟨2, 1, none⟩))
      false = .panicked "Error open log file" ∧
    MirrorPlugin.process_image 2 2 (some testBuf16)
      (some (.ok ⟨some true, some false, none⟩)) false =
      .panicked "Error open log file" := by
  constructor <;> decide

/-- **C2** (counterexample): on the golden 2×2 buffer, at pixel 0 / channel 0
with `radius = 2`, `blur_rgba` computes 3 (and the first pass writes 3 to byte
0, per C1), while the mean described by the claim — strictly-left/right
same-row samples plus `±1..=±radius` whole-row offsets from the pixel's
channel byte — is `(buf[4] + buf[8]) / 2 = 6`.  The code's window differs: it
also includes the centre sample (loop index `i = 0` feeds both branches), it
applies the channel offset twice in the column branch, and its row-window
test `right < buff_len` rejects the whole bottom row. -/
theorem blur_rgba_differs_from_spec_mean :
    BlurPlugin.blur_rgba testBuf16 0 2 2 4 2 0 = .ok (3, 0) ∧
    BlurPlugin.blurSpecValue testBuf16 2 0 0 2 = 6 ∧ (3 : Nat) ≠ 6 := by
  refine ⟨by decide, by decide, by decide⟩

/-- **C8** (counterexample): the horizontal flip's
`let row_start = y * row_size;` is an *unchecked* `usize` multiplication.
At `width = u32::MAX` (so `row_size = 17179869180` passes its checked
multiplication) and row `y = 2^31` (reachable whenever `height > 2^31`, a
legal `u32`), the product `2^65 - 2^33` wraps to `2^64 - 2^33`: the engine
computes a silently wrapped offset, with no error outcome. -/
theorem mirror_row_start_wraps_unchecked :
    MirrorPlugin.horizRowStart 2147483648 17179869180 = 18446744065119617024 ∧
    (2147483648 : Nat) * 17179869180 = 36893488138829168640 ∧
    MirrorPlugin.horizRowStart 2147483648 17179869180 ≠
      2147483648 * 17179869180 := by
  refine ⟨by decide, by decide, by decide⟩

theorem foldlM_except_eq_foldl {α β : Type} (l : List α)
    (g : β → α → Except β β) (f : β → α → β)
    (hg : ∀ b x, x ∈ l → g b x = .ok (f b x)) (b0 : β) :
    l.foldlM g b0 = .ok (l.foldl f b0) := by
  induction l generalizing b0 with
  | nil => rfl
  | cons a tl ih =>
    rw [List.foldlM_cons, hg b0 a (List.mem_cons_self a tl)]
    show Except.bind (Except.ok (f b0 a)) _ = _
    rw [Except.bind]
    exact ih (fun b x hx => hg b x (List.mem_cons_of_mem a hx)) (f b0 a)

theorem applySwaps_append (ps qs : List (Nat × Nat × Nat)) (buf : List Nat) :
    applySwaps (ps ++ qs) buf = applySwaps qs (applySwaps ps buf) := by
  unfold applySwaps; rw [List.foldl_append]

theorem applySwaps_flatMap {α : Type} (l : List α)
    (g : α → List (Nat × Nat × Nat)) (buf : List Nat) :
    l.foldl (fun b y => applySwaps (g y) b) buf =
      applySwaps (l.flatMap g) buf := by
  induction l generalizing buf with
  | nil => rfl
  | cons a tl ih =>
    rw [List.foldl_cons, ih (applySwaps (g a) buf), List.flatMap_cons,
      applySwaps_append]

theorem mul_add_one_le (i k s : Nat) (hik : i + 1 ≤ k) : i * s + s ≤ k * s := by
  calc i * s + s = (i + 1) * s := by ring
  _ ≤ k * s := Nat.mul_le_mul_right s hik

theorem rowRangesDisj (s r1 r2 : Nat) (hne : r1 ≠ r2) :
    RangesDisj (r1 * s) s (r2 * s) s := by
  rcases Nat.lt_or_ge r1 r2 with hlt | hge
  · exact Or.inl (mul_add_one_le r1 r2 s hlt)
  · exact Or.inr (mul_add_one_le r2 r1 s (by omega))

theorem mem_vertPairs (w h : Nat) (p : Nat × Nat × Nat)
    (hp : p ∈ vertPairs w h) :
    ∃ i, i < h / 2 ∧ p = (i * (w * 4), (h - 1 - i) * (w * 4), w * 4) := by
  simp only [vertPairs, List.mem_map, List.mem_range] at hp
  obtain ⟨i, hi, rfl⟩ := hp
  exact ⟨i, hi, rfl⟩

theorem vertPairs_inBounds (w h : Nat) (p : Nat × Nat × Nat)
    (hp : p ∈ vertPairs w h) : TripleInBounds (w * h * 4) p := by
  obtain ⟨i, hi, rfl⟩ := mem_vertPairs w h p hp
  have hwh : h * (w * 4) = w * h * 4 := by ring
  constructor
  · show i * (w * 4) + w * 4 ≤ w * h * 4
    rw [← hwh]; exact mul_add_one_le i h (w * 4) (by omega)
  · show (h - 1 - i) * (w * 4) + w * 4 ≤ w * h * 4
    rw [← hwh]; exact mul_add_one_le (h - 1 - i) h (w * 4) (by omega)

theorem vertPairs_selfDisj (w h : Nat) (p : Nat × Nat × Nat)
    (hp : p ∈ vertPairs w h) : RangesDisj p.1 p.2.2 p.2.1 p.2.2 := by
  obtain ⟨i, hi, rfl⟩ := mem_vertPairs w h p hp
  exact rowRangesDisj (w * 4) i (h - 1 - i) (by omega)

theorem vertPairs_commutes (w h : Nat) (p : Nat × Nat × Nat)
    (hp : p ∈ vertPairs w h) (q : Nat × Nat × Nat) (hq : q ∈ vertPairs w h) :
    SwapCommutes p q := by
  obtain ⟨i, hi, rfl⟩ := mem_vertPairs w h p hp
  obtain ⟨j, hj, rfl⟩ := mem_vertPairs w h q hq
  by_cases hij : i = j
  · subst hij; exact fun _ => rfl
  · intro x
    exact swapIdx_comm (rowRangesDisj (w * 4) i j hij)
      (rowRangesDisj (w * 4) i (h - 1 - j) (by omega))
      (rowRangesDisj (w * 4) (h - 1 - i) j (by omega))
      (rowRangesDisj (w * 4) (h - 1 - i) (h - 1 - j) (by omega)) x

theorem verticalFlip_eq_applySwaps (w h : Nat) (buf : List Nat) (hh : 1 ≤ h)
    (hfit : w * h * 4 < USIZE) :
    MirrorPlugin.verticalFlip w h buf = .ok (applySwaps (vertPairs w h) buf) := by
  have hw4 : w * 4 ≤ w * h * 4 := by
    calc w * 4 = w * 1 * 4 := by ring
    _ ≤ w * h * 4 := by
        exact Nat.mul_le_mul_right 4 (Nat.mul_le_mul_left w hh)
  have hrs : checked_mul_usize w 4 = some (w * 4) := by
    unfold checked_mul_usize; rw [if_pos (by omega)]
  have hmain : MirrorPlugin.verticalFlip w h buf =
      (List.range (h / 2)).foldlM (fun b i =>
        match checked_mul_usize i (w * 4),
              checked_mul_usize (h - 1 - i) (w * 4) with
        | some top_offset, some bottom_offset =>
          Except.ok (swapRanges b top_offset bottom_offset (w * 4))
        | _, _ => Except.error b) buf := by
    unfold MirrorPlugin.verticalFlip
    rw [hrs]
  rw [hmain]
  have hbody : ∀ (b : List Nat) (i : Nat), i ∈ List.range (h / 2) →
      (match checked_mul_usize i (w * 4),
             checked_mul_usize (h - 1 - i) (w * 4) with
       | some top_offset, some bottom_offset =>
         Except.ok (swapRanges b top_offset bottom_offset (w * 4))
       | _, _ => Except.error b) =
      Except.ok (swapRanges b (i * (w * 4)) ((h - 1 - i) * (w * 4)) (w * 4)) := by
    intro b i hi
    rw [List.mem_range] at hi
    have h1 : i * (w * 4) < USIZE := by
      have := mul_add_one_le i h (w * 4) (by omega)
      have hwh : h * (w * 4) = w * h * 4 := by ring
      omega
    have h2 : (h - 1 - i) * (w * 4) < USIZE := by
      have := mul_add_one_le (h - 1 - i) h (w * 4) (by omega)
      have hwh : h * (w * 4) = w * h * 4 := by ring
      omega
    unfold checked_mul_usize
    rw [if_pos h1, if_pos h2]
  rw [foldlM_except_eq_foldl _ _
      (fun b i => swapRanges b (i * (w * 4)) ((h - 1 - i) * (w * 4)) (w * 4))
      hbody buf]
  unfold applySwaps vertPairs
  rw [List.foldl_map]

theorem mem_horizPairs (w h : Nat) (p : Nat × Nat × Nat)
    (hp : p ∈ horizPairs w h) :
    ∃ y x, y < h ∧ x < w / 2 ∧
      p = (y * (w * 4) + x * 4, y * (w * 4) + (w - 1 - x) * 4, 4) := by
  simp only [horizPairs, List.mem_flatMap, List.mem_map, List.mem_range] at hp
  obtain ⟨y, hy, x, hx, rfl⟩ := hp
  exact ⟨y, x, hy, hx, rfl⟩

theorem colRangesDisj (base c1 c2 : Nat) (hne : c1 ≠ c2) :
    RangesDisj (base + c1 * 4) 4 (base + c2 * 4) 4 := by
  rcases Nat.lt_or_ge c1 c2 with hlt | hge
  · have := mul_add_one_le c1 c2 4 hlt
    exact Or.inl (by omega)
  · have := mul_add_one_le c2 c1 4 (by omega)
    exact Or.inr (by omega)

theorem bandRangesDisj (w y1 y2 c1 c2 : Nat) (hne : y1 ≠ y2) (hc1 : c1 < w)
    (hc2 : c2 < w) :
    RangesDisj (y1 * (w * 4) + c1 * 4) 4 (y2 * (w * 4) + c2 * 4) 4 := by
  have hc1' : c1 * 4 + 4 ≤ w * 4 := mul_add_one_le c1 w 4 hc1
  have hc2' : c2 * 4 + 4 ≤ w * 4 := mul_add_one_le c2 w 4 hc2
  rcases Nat.lt_or_ge y1 y2 with hlt | hge
  · have := mul_add_one_le y1 y2 (w * 4) hlt
    exact Or.inl (by omega)
  · have := mul_add_one_le y2 y1 (w * 4) (by omega)
    exact Or.inr (by omega)

theorem horizPairs_inBounds (w h : Nat) (p : Nat × Nat × Nat)
    (hp : p ∈ horizPairs w h) : TripleInBounds (w * h * 4) p := by
  obtain ⟨y, x, hy, hx, rfl⟩ := mem_horizPairs w h p hp
  have hyb : y * (w * 4) + w * 4 ≤ h * (w * 4) := mul_add_one_le y h (w * 4) hy
  have hwh : h * (w * 4) = w * h * 4 := by ring
  have hxb : x * 4 + 4 ≤ w * 4 := mul_add_one_le x w 4 (by omega)
  have hxb' : (w - 1 - x) * 4 + 4 ≤ w * 4 :=
    mul_add_one_le (w - 1 - x) w 4 (by omega)
  refine ⟨?_, ?_⟩
  · show y * (w * 4) + x * 4 + 4 ≤ w * h * 4
    omega
  · show y * (w * 4) + (w - 1 - x) * 4 + 4 ≤ w * h * 4
    omega

theorem horizPairs_selfDisj (w h : Nat) (p : Nat × Nat × Nat)
    (hp : p ∈ horizPairs w h) : RangesDisj p.1 p.2.2 p.2.1 p.2.2 := by
  obtain ⟨y, x, hy, hx, rfl⟩ := mem_horizPairs w h p hp
  have := colRangesDisj (y * (w * 4)) x (w - 1 - x) (by omega)
  exact this

theorem horizPairs_commutes (w h : Nat) (p : Nat × Nat × Nat)
    (hp : p ∈ horizPairs w h) (q : Nat × Nat × Nat) (hq : q ∈ horizPairs w h) :
    SwapCommutes p q := by
  obtain ⟨y, x, hy, hx, rfl⟩ := mem_horizPairs w h p hp
  obtain ⟨y', x', hy', hx', rfl⟩ := mem_horizPairs w h q hq
  by_cases hyy : y = y'
  · subst hyy
    by_cases hxx : x = x'
    · subst hxx; exact fun _ => rfl
    · intro t
      exact swapIdx_comm (colRangesDisj (y * (w * 4)) x x' hxx)
        (colRangesDisj (y * (w * 4)) x (w - 1 - x') (by omega))
        (colRangesDisj (y * (w * 4)) (w - 1 - x) x' (by omega))
        (colRangesDisj (y * (w * 4)) (w - 1 - x) (w - 1 - x') (by omega)) t
  · intro t
    exact swapIdx_comm (bandRangesDisj w y y' x x' hyy (by omega) (by omega))
      (bandRangesDisj w y y' x (w - 1 - x') hyy (by omega) (by omega))
      (bandRangesDisj w y y' (w - 1 - x) x' hyy (by omega) (by omega))
      (bandRangesDisj w y y' (w - 1 - x) (w - 1 - x') hyy (by omega) (by omega)) t

theorem horizontalFlip_eq_applySwaps (w h : Nat) (buf : List Nat) (hh : 1 ≤ h)
    (hfit : w * h * 4 < USIZE) :
    MirrorPlugin.horizontalFlip w h buf =
      .ok (applySwaps (horizPairs w h) buf) := by
  have hwh : h * (w * 4) = w * h * 4 := by ring
  have hw4 : w * 4 ≤ w * h * 4 := by
    calc w * 4 = w * 1 * 4 := by ring
    _ ≤ w * h * 4 := Nat.mul_le_mul_right 4 (Nat.mul_le_mul_left w hh)
  have hrs : checked_mul_usize w 4 = some (w * 4) := by
    unfold checked_mul_usize; rw [if_pos (by omega)]
  have hmain : MirrorPlugin.horizontalFlip w h buf =
      (List.range h).foldlM (fun b y =>
        (List.range (w / 2)).foldlM (fun b2 x =>
          match checked_mul_usize x 4, checked_mul_usize (w - 1 - x) 4 with
          | some lo, some ro =>
            Except.ok (swapRanges b2
              ((MirrorPlugin.horizRowStart y (w * 4) + lo) % USIZE)
              ((MirrorPlugin.horizRowStart y (w * 4) + ro) % USIZE) 4)
          | _, _ => Except.error b2) b) buf := by
    unfold MirrorPlugin.horizontalFlip
    rw [hrs]
  rw [hmain]
  have hbody : ∀ (b : List Nat) (y : Nat), y ∈ List.range h →
      (List.range (w / 2)).foldlM (fun b2 x =>
        match checked_mul_usize x 4, checked_mul_usize (w - 1 - x) 4 with
        | some lo, some ro =>
          Except.ok (swapRanges b2
            ((MirrorPlugin.horizRowStart y (w * 4) + lo) % USIZE)
            ((MirrorPlugin.horizRowStart y (w * 4) + ro) % USIZE) 4)
        | _, _ => Except.error b2) b =
      Except.ok (applySwaps ((List.range (w / 2)).map (fun x =>
        (y * (w * 4) + x * 4, y * (w * 4) + (w - 1 - x) * 4, 4))) b) := by
    intro b y hy
    rw [List.mem_range] at hy
    have hyb : y * (w * 4) + w * 4 ≤ h * (w * 4) := mul_add_one_le y h (w * 4) hy
    have hstart : MirrorPlugin.horizRowStart y (w * 4) = y * (w * 4) := by
      unfold MirrorPlugin.horizRowStart
      exact Nat.mod_eq_of_lt (by omega)
    have hinner : ∀ (b2 : List Nat) (x : Nat), x ∈ List.range (w / 2) →
        (match checked_mul_usize x 4, checked_mul_usize (w - 1 - x) 4 with
         | some lo, some ro =>
           Except.ok (swapRanges b2
             ((MirrorPlugin.horizRowStart y (w * 4) + lo) % USIZE)
             ((MirrorPlugin.horizRowStart y (w * 4) + ro) % USIZE) 4)
         | _, _ => Except.error b2) =
        Except.ok (swapRanges b2 (y * (w * 4) + x * 4)
          (y * (w * 4) + (w - 1 - x) * 4) 4) := by
      intro b2 x hxm
      rw [List.mem_range] at hxm
      have hxb : x * 4 + 4 ≤ w * 4 := mul_add_one_le x w 4 (by omega)
      have hxb' : (w - 1 - x) * 4 + 4 ≤ w * 4 :=
        mul_add_one_le (w - 1 - x) w 4 (by omega)
      have c1 : checked_mul_usize x 4 = some (x * 4) := by
        unfold checked_mul_usize; rw [if_pos (by omega)]
      have c2 : checked_mul_usize (w - 1 - x) 4 = some ((w - 1 - x) * 4) := by
        unfold checked_mul_usize; rw [if_pos (by omega)]
      rw [c1, c2, hstart]
      show Except.ok (swapRanges b2 ((y * (w * 4) + x * 4) % USIZE)
        ((y * (w * 4) + (w - 1 - x) * 4) % USIZE) 4) = _
      rw [Nat.mod_eq_of_lt (by omega), Nat.mod_eq_of_lt (by omega)]
    rw [foldlM_except_eq_foldl _ _
        (fun b2 x => swapRanges b2 (y * (w * 4) + x * 4)
          (y * (w * 4) + (w - 1 - x) * 4) 4) hinner b]
    unfold applySwaps
    rw [List.foldl_map]
  rw [foldlM_except_eq_foldl _ _
      (fun b y => applySwaps ((List.range (w / 2)).map (fun x =>
        (y * (w * 4) + x * 4, y * (w * 4) + (w - 1 - x) * 4, 4))) b)
      hbody buf]
  rw [applySwaps_flatMap]
  rfl

/-- **C6**: for every `width, height ≥ 1` and every buffer of length
`width*height*4` (a real allocation, hence below `usize::MAX`), applying the
mirror plugin's vertical flip twice returns the buffer to its original byte
sequence, and likewise for the horizontal flip: each flip is a composition of
byte-range swaps over pairwise disjoint ranges, hence an involution. -/
theorem mirror_flip_involution (w h : Nat) (buf : List Nat) (hw : 1 ≤ w)
    (hh : 1 ≤ h) (hlen : buf.length = w * h * 4) (hfit : w * h * 4 < USIZE) :
    (MirrorPlugin.verticalFlip w h buf).bind (MirrorPlugin.verticalFlip w h) =
      .ok buf ∧
    (MirrorPlugin.horizontalFlip w h buf).bind
      (MirrorPlugin.horizontalFlip w h) = .ok buf := by
  constructor
  · rw [verticalFlip_eq_applySwaps w h buf hh hfit]
    show MirrorPlugin.verticalFlip w h (applySwaps (vertPairs w h) buf) = _
    rw [verticalFlip_eq_applySwaps w h _ hh hfit]
    have hb : ∀ p ∈ vertPairs w h, TripleInBounds buf.length p := by
      rw [hlen]; exact vertPairs_inBounds w h
    rw [applySwaps_invol hb (vertPairs_selfDisj w h) (vertPairs_commutes w h)]
  · rw [horizontalFlip_eq_applySwaps w h buf hh hfit]
    show MirrorPlugin.horizontalFlip w h (applySwaps (horizPairs w h) buf) = _
    rw [horizontalFlip_eq_applySwaps w h _ hh hfit]
    have hb : ∀ p ∈ horizPairs w h, TripleInBounds buf.length p := by
      rw [hlen]; exact horizPairs_inBounds w h
    rw [applySwaps_invol hb (horizPairs_selfDisj w h) (horizPairs_commutes w h)]

/-- Witness for C6: the involution at the concrete 2×2 golden buffer. -/
theorem mirror_flip_involution_witness :
    testBuf16.length = 2 * 2 * 4 ∧
    ((MirrorPlugin.verticalFlip 2 2 testBuf16).bind
        (MirrorPlugin.verticalFlip 2 2) = .ok testBuf16 ∧
      (MirrorPlugin.horizontalFlip 2 2 testBuf16).bind
        (MirrorPlugin.horizontalFlip 2 2) = .ok testBuf16) :=
  ⟨by decide, mirror_flip_involution 2 2 testBuf16 (by decide) (by decide)
    (by decide) (by decide)⟩

/-- **C3**: every validation failure — null config pointer, invalid-UTF-8 or
undecodable config string, null buffer pointer, `width == 0`, `height == 0` —
makes `process_image` of both plugins return normally with the buffer
byte-for-byte unchanged (given that logger initialization succeeds; its
failure mode is claim C4's subject). -/
theorem process_image_validation_noop (width height : Nat)
    (rgba : Option (List Nat))
    (pb : Option (Except Unit BlurPlugin.ConfigTransform))
    (pm : Option (Except Unit MirrorPlugin.ConfigTransform))
    (hfail : (pb = none ∧ pm = none) ∨
      (pb = some (.error ()) ∧ pm = some (.error ())) ∨
      rgba = none ∨ width = 0 ∨ height = 0) :
    BlurPlugin.process_image width height rgba pb true = .ok rgba ∧
    MirrorPlugin.process_image width height rgba pm true = .ok rgba := by
  constructor
  · rcases pb with _ | pb
    · simp [BlurPlugin.process_image, setup_logger]
    · rcases pb with e | cfg
      · simp [BlurPlugin.process_image, setup_logger]
      · rcases hfail with ⟨h, -⟩ | ⟨h, -⟩ | h | h | h
        · exact absurd h (by simp)
        · exact absurd h (by simp)
        · subst h; simp [BlurPlugin.process_image, setup_logger]
        · subst h
          rcases rgba with _ | buf <;>
            simp [BlurPlugin.process_image, setup_logger]
        · subst h
          rcases rgba with _ | buf <;>
            simp [BlurPlugin.process_image, setup_logger]
  · rcases pm with _ | pm
    · simp [MirrorPlugin.process_image, setup_logger]
    · rcases pm with e | cfg
      · simp [MirrorPlugin.process_image, setup_logger]
      · rcases hfail with ⟨-, h⟩ | ⟨-, h⟩ | h | h | h
        · exact absurd h (by simp)
        · exact absurd h (by simp)
        · subst h; simp [MirrorPlugin.process_image, setup_logger]
        · subst h
          rcases rgba with _ | buf <;>
            simp [MirrorPlugin.process_image, setup_logger]
        · subst h
          rcases rgba with _ | buf <;>
            simp [MirrorPlugin.process_image, setup_logger]

/-- Witness for C3: a concrete degenerate input (`width = 0`) really is a
no-op for both plugins. -/
theorem process_image_validation_noop_witness :
    BlurPlugin.process_image 0 2 (some testBuf16) (some (.ok ⟨2, 1, none⟩))
      true = .ok (some testBuf16) ∧
    MirrorPlugin.process_image 0 2 (some testBuf16)
      (some (.ok ⟨some true, none, none⟩)) true = .ok (some testBuf16) :=
  process_image_validation_noop 0 2 (some testBuf16)
    (some (.ok ⟨2, 1, none⟩)) (some (.ok ⟨some true, none, none⟩))
    (Or.inr (Or.inr (Or.inr (Or.inl rfl))))

@[simp] theorem I32MAX_eq : I32MAX = 2147483647 := rfl

@[simp] theorem I32MIN_eq : I32MIN = -2147483648 := rfl

theorem wrap_i32_eq_self (x : Int) (h1 : -2147483648 ≤ x) (h2 : x ≤ 2147483647) :
    wrap_i32 x = x := by
  unfold wrap_i32; omega

theorem wrap_i32_shift_down (x : Int) (h1 : 2147483647 < x) (h2 : x < 6442450944) :
    wrap_i32 x = x - 4294967296 := by
  unfold wrap_i32; omega

theorem int_tdiv_coe (a b : Nat) :
    (a : Int).tdiv (b : Int) = ((a / b : Nat) : Int) := rfl

theorem div_four_mul (c ip w : Nat) (hc : c < 4) (hw : 1 ≤ w) :
    (c + 4 * ip) / (4 * w) = ip / w := by
  have hmod : ip % w < w := Nat.mod_lt ip hw
  have hsplit : c + 4 * ip = (4 * (ip % w) + c) + (ip / w) * (4 * w) := by
    conv_lhs => rw [← Nat.div_add_mod ip w]
    ring
  rw [hsplit, Nat.add_mul_div_right _ _ (by omega : 0 < 4 * w),
    Nat.div_eq_of_lt (by omega)]
  omega

theorem read_u8_ok (buf : List Nat) (i : Int) (h1 : 0 ≤ i)
    (h2 : i < (buf.length : Int)) :
    read_u8 buf i = .ok (buf.getD i.toNat 0) := by
  unfold read_u8; rw [if_pos ⟨h1, h2⟩]

@[simp] theorem USIZE_eq : USIZE = 18446744073709551616 := rfl

@[simp] theorem ok_bind {α β : Type} (a : α) (f : α → RustResult β) :
    (RustResult.ok a : RustResult α) >>= f = f a := rfl

@[simp] theorem err_bind {α β : Type} (e : Err) (f : α → RustResult β) :
    (RustResult.err e : RustResult α) >>= f = RustResult.err e := rfl

theorem checked_mul_i32_some (a b : Int) (h1 : -2147483648 ≤ a * b)
    (h2 : a * b ≤ 2147483647) : checked_mul_i32 a b = some (a * b) := by
  unfold checked_mul_i32
  rw [if_pos ⟨by simp only [I32MIN_eq]; omega, by simp only [I32MAX_eq]; omega⟩]

theorem checked_mul_i32_none (a b : Int)
    (h : a * b < -2147483648 ∨ 2147483647 < a * b) :
    checked_mul_i32 a b = none := by
  unfold checked_mul_i32
  rw [if_neg (by simp only [I32MIN_eq, I32MAX_eq]; omega)]

theorem tryIntoI32_ok (n : Nat) (h : (n : Int) ≤ 2147483647) :
    tryIntoI32 n = .ok (n : Int) := by
  unfold tryIntoI32
  rw [if_pos (by rw [I32MAX_eq]; exact h)]

namespace BlurPlugin

@[simp] theorem orOverflow_none {α : Type} (f : Int → RustResult α) :
    orOverflow none f = .err .OverflowError := rfl

@[simp] theorem orOverflow_some {α : Type} (v : Int) (f : Int → RustResult α) :
    orOverflow (some v) f = f v := rfl

/-- The column branch of one loop iteration either overflows (a
distinguishable `Err`) or adds exactly the `vIncl`/`vSamp` contribution. -/
theorem blurVert_cases (buf : List Nat) (w h ip c r : Nat)
    (hw : 1 ≤ w) (hh : 1 ≤ h) (hlen : buf.length = w * h * 4)
    (hip : ip < w * h) (hc : c < 4)
    (hlenM : ((buf.length : Nat) : Int) ≤ 2147483647) (j : Int)
    (sc1 : Nat × Nat) :
    blurVert buf ((c : Int) + (ip : Int) * 4) (c : Int) ((w : Int) * 4)
        ((buf.length : Nat) : Int) j sc1 = .err .OverflowError ∨
    blurVert buf ((c : Int) + (ip : Int) * 4) (c : Int) ((w : Int) * 4)
        ((buf.length : Nat) : Int) j sc1 = .ok (vUpd buf w ip c j sc1) := by
  have hip4 : 4 * ip + 4 ≤ buf.length := by
    rw [hlen]; omega
  have hmod4 : buf.length % 4 = 0 := by rw [hlen]; omega
  have hl : j * ((w : Int) * 4) = 4 * (w : Int) * j := by ring
  unfold blurVert
  by_cases hm2hi : j * ((w : Int) * 4) ≤ 2147483647
  case neg =>
    left
    rw [checked_mul_i32_none _ _ (by omega)]
    exact orOverflow_none _
  case pos =>
  by_cases hm2lo : -2147483648 ≤ j * ((w : Int) * 4)
  case neg =>
    left
    rw [checked_mul_i32_none _ _ (by omega)]
    exact orOverflow_none _
  case pos =>
  rw [checked_mul_i32_some _ _ hm2lo hm2hi, orOverflow_some]
  rw [wrap_i32_eq_self ((c : Int) + ((c : Int) + (ip : Int) * 4))
    (by omega) (by omega)]
  have harg : (c : Int) + ((c : Int) + (ip : Int) * 4) + j * ((w : Int) * 4) =
      vOff w ip c j := by
    unfold vOff; ring
  by_cases hVhi : (c : Int) + ((c : Int) + (ip : Int) * 4) + j * ((w : Int) * 4) ≤
      2147483647
  case pos =>
    rw [wrap_i32_eq_self _ (by omega) hVhi, harg]
    by_cases hVin : vIncl buf.length w ip c j = true
    case pos =>
      have hVin' := hVin
      simp only [vIncl, Bool.and_eq_true, decide_eq_true_eq] at hVin'
      rw [if_pos hVin', read_u8_ok buf _ hVin'.1 hVin'.2, ok_bind]
      right
      unfold vUpd
      rw [if_pos hVin]
      rfl
    case neg =>
      have hVin' : ¬ (0 ≤ vOff w ip c j ∧ vOff w ip c j < (buf.length : Int)) := by
        intro hco
        refine hVin ?_
        simp only [vIncl, Bool.and_eq_true, decide_eq_true_eq]
        exact hco
      rw [if_neg hVin']
      right
      unfold vUpd
      rw [if_neg hVin]
  case neg =>
    rw [wrap_i32_shift_down _ (by omega) (by omega)]
    have hVF : ¬ vIncl buf.length w ip c j = true := by
      simp only [vIncl, vOff, Bool.and_eq_true, decide_eq_true_eq, not_and,
        not_lt]
      intro h0
      omega
    rw [if_neg (by omega)]
    right
    unfold vUpd
    rw [if_neg hVF]

/-- One full loop iteration of `blur_rgba` either overflows or adds exactly
the `stepUpd` contribution. -/
theorem blurStep_cases (buf : List Nat) (w h ip c r : Nat)
    (hw : 1 ≤ w) (hh : 1 ≤ h) (hlen : buf.length = w * h * 4)
    (hip : ip < w * h) (hc : c < 4)
    (hlenM : ((buf.length : Nat) : Int) ≤ 2147483647)
    (hrM : ((r : Nat) : Int) ≤ 2147483647)
    (j : Int) (hj1 : -(r : Int) ≤ j) (hj2 : j ≤ (r : Int)) (sc : Nat × Nat) :
    blurStep buf ((c : Int) + (ip : Int) * 4) (ip : Int) (c : Int) 4 (w : Int)
        ((buf.length : Nat) : Int) j sc = .err .OverflowError ∨
    blurStep buf ((c : Int) + (ip : Int) * 4) (ip : Int) (c : Int) 4 (w : Int)
        ((buf.length : Nat) : Int) j sc = .ok (stepUpd buf w h ip c j sc) := by
  have hmod : ip % w < w := Nat.mod_lt ip hw
  have hEdm : w * (ip / w) + ip % w = ip := Nat.div_add_mod ip w
  have hrowlt : ip / w < h := Nat.div_lt_of_lt_mul (by omega)
  have hmc : w * (ip / w) = ip / w * w := Nat.mul_comm _ _
  have hLBn : ip / w * w * 4 ≤ 4 * ip := by omega
  have hwh4 : h * (w * 4) = w * h * 4 := by ring
  have hLB4 : ip / w * (w * 4) + w * 4 ≤ h * (w * 4) :=
    mul_add_one_le (ip / w) h (w * 4) (by omega)
  have hLBf : ip / w * (w * 4) = ip / w * w * 4 := by ring
  have hw4len : w * 4 ≤ buf.length := by
    have h0 := mul_add_one_le 0 h (w * 4) hh
    omega
  have hmod4 : buf.length % 4 = 0 := by rw [hlen]; omega
  have hip4 : 4 * ip + 4 ≤ buf.length := by rw [hlen]; omega
  have hLBcast : ((ip / w : Nat) : Int) * ((w : Int) * 4) =
      ((ip / w * w * 4 : Nat) : Int) := by push_cast; ring
  unfold blurStep
  by_cases hbig : j + (ip : Int) ≤ 2147483647
  case neg =>
    left
    rw [wrap_i32_shift_down _ (by omega) (by omega),
      checked_mul_i32_none _ _ (by omega)]
    exact orOverflow_none _
  case pos =>
  rw [wrap_i32_eq_self (j + (ip : Int)) (by omega) hbig]
  by_cases hmhi : (j + (ip : Int)) * 4 ≤ 2147483647
  case neg =>
    left
    rw [checked_mul_i32_none _ _ (by omega)]
    exact orOverflow_none _
  case pos =>
  by_cases hmlo : -2147483648 ≤ (j + (ip : Int)) * 4
  case neg =>
    left
    rw [checked_mul_i32_none _ _ (by omega)]
    exact orOverflow_none _
  case pos =>
  rw [checked_mul_i32_some _ _ hmlo hmhi, orOverflow_some]
  rw [checked_mul_i32_some (w : Int) 4 (by omega) (by omega), orOverflow_some]
  have hdiv : checked_div_i32 ((c : Int) + (ip : Int) * 4) ((w : Int) * 4) =
      some ((ip / w : Nat) : Int) := by
    unfold checked_div_i32
    rw [if_neg ?_]
    · have hc1 : (c : Int) + (ip : Int) * 4 = ((c + 4 * ip : Nat) : Int) := by
        push_cast; ring
      have hc2 : (w : Int) * 4 = ((4 * w : Nat) : Int) := by push_cast; ring
      rw [hc1, hc2, int_tdiv_coe, div_four_mul c ip w hc hw]
    · simp only [I32MIN_eq]
      intro hbad
      rcases hbad with hbad | ⟨hbad1, hbad2⟩ <;> omega
  rw [hdiv, orOverflow_some]
  rw [checked_mul_i32_some ((ip / w : Nat) : Int) ((w : Int) * 4)
    (by rw [hLBcast]; omega) (by rw [hLBcast]; omega), orOverflow_some]
  have hICw : wrap_i32 ((c : Int) + (j + (ip : Int)) * 4) =
      (c : Int) + (j + (ip : Int)) * 4 :=
    wrap_i32_eq_self _ (by omega) (by omega)
  have hleftw : wrap_i32 (((ip / w : Nat) : Int) * ((w : Int) * 4) + (c : Int)) =
      ((ip / w : Nat) : Int) * ((w : Int) * 4) + (c : Int) := by
    rw [hLBcast]
    exact wrap_i32_eq_self _ (by omega) (by omega)
  have hinw : wrap_i32 (((ip / w : Nat) : Int) * ((w : Int) * 4) + (w : Int) * 4) =
      ((ip / w : Nat) : Int) * ((w : Int) * 4) + (w : Int) * 4 := by
    rw [hLBcast]
    have hpc : ((ip / w * w * 4 : Nat) : Int) + (w : Int) * 4 =
        ((ip / w * w * 4 + w * 4 : Nat) : Int) := by push_cast; ring
    rw [hpc]
    exact wrap_i32_eq_self _ (by omega) (by omega)
  rw [hICw, hleftw, hinw]
  clear hICw hleftw hinw
  have hrightw : wrap_i32 (((ip / w : Nat) : Int) * ((w : Int) * 4) +
      (w : Int) * 4 + (c : Int)) =
      ((ip / w : Nat) : Int) * ((w : Int) * 4) + (w : Int) * 4 + (c : Int) := by
    rw [hLBcast]
    have hpc : ((ip / w * w * 4 : Nat) : Int) + (w : Int) * 4 + (c : Int) =
        ((ip / w * w * 4 + w * 4 + c : Nat) : Int) := by push_cast; ring
    rw [hpc]
    exact wrap_i32_eq_self _ (by omega) (by omega)
  rw [hrightw]
  clear hrightw
  by_cases hH : hIncl w h ip j = true
  case pos =>
    have hH' := hH
    simp only [hIncl, Bool.and_eq_true, decide_eq_true_eq] at hH'
    obtain ⟨⟨hA, hB⟩, hC⟩ := hH'
    have hstrict : (ip / w + 1) * (w * 4) + w * 4 ≤ h * (w * 4) :=
      mul_add_one_le (ip / w + 1) h (w * 4) (by omega)
    have hexp : (ip / w + 1) * (w * 4) = ip / w * (w * 4) + w * 4 := by ring
    have hcond1 : (c : Int) + (j + (ip : Int)) * 4 ≥
        ((ip / w : Nat) : Int) * ((w : Int) * 4) + (c : Int) := by
      rw [hLBcast]; omega
    have hcond2 : (c : Int) + (j + (ip : Int)) * 4 <
        ((ip / w : Nat) : Int) * ((w : Int) * 4) + (w : Int) * 4 + (c : Int) := by
      rw [hLBcast]; omega
    have hcond3 : ((ip / w : Nat) : Int) * ((w : Int) * 4) + (c : Int) ≥ 0 := by
      rw [hLBcast]; omega
    have hcond4 : ((ip / w : Nat) : Int) * ((w : Int) * 4) + (w : Int) * 4 +
        (c : Int) < ((buf.length : Nat) : Int) := by
      rw [hLBcast]; omega
    have hcond5 : ((ip / w : Nat) : Int) * ((w : Int) * 4) + (c : Int) <
        ((ip / w : Nat) : Int) * ((w : Int) * 4) + (w : Int) * 4 + (c : Int) := by
      rw [hLBcast]; omega
    rw [if_pos ⟨hcond1, hcond2, hcond3, hcond4, hcond5⟩]
    have hr1 : 0 ≤ (c : Int) + (j + (ip : Int)) * 4 := by
      rw [hLBcast] at hcond1
      omega
    have hr2 : (c : Int) + (j + (ip : Int)) * 4 < ((buf.length : Nat) : Int) := by
      rw [hLBcast] at hcond2 hcond4
      omega
    rw [read_u8_ok buf _ hr1 hr2, ok_bind]
    have hsampix : buf.getD ((c : Int) + (j + (ip : Int)) * 4).toNat 0 =
        hSamp buf ip c j := by
      unfold hSamp
      rw [show 4 * (j + (ip : Int)) + (c : Int) =
        (c : Int) + (j + (ip : Int)) * 4 from by ring]
    rw [hsampix, ok_bind]
    rcases blurVert_cases buf w h ip c r hw hh hlen hip hc hlenM j
        (sc.1 + hSamp buf ip c j, sc.2 + 1) with hE | hOk
    · left; exact hE
    · right
      rw [hOk]
      unfold stepUpd
      rw [show hUpd buf w h ip c j sc = (sc.1 + hSamp buf ip c j, sc.2 + 1)
        from by unfold hUpd; rw [if_pos hH]]
  case neg =>
    rw [if_neg ?hncond]
    case hncond =>
      intro hcond
      obtain ⟨c1, c2, c3, c4, c5⟩ := hcond
      refine hH ?_
      simp only [hIncl, Bool.and_eq_true, decide_eq_true_eq]
      rw [hLBcast] at c1 c2 c4
      refine ⟨⟨by omega, by omega⟩, ?_⟩
      rcases (show ip / w + 1 < h ∨ ip / w + 1 = h from by omega) with hlt | hEq
      · exact hlt
      · exfalso
        have hfull : h * (w * 4) = ip / w * (w * 4) + w * 4 := by
          rw [← hEq]; ring
        omega
    rw [ok_bind]
    rcases blurVert_cases buf w h ip c r hw hh hlen hip hc hlenM j sc
      with hE | hOk
    · left; exact hE
    · right
      rw [hOk]
      unfold stepUpd
      rw [show hUpd buf w h ip c j sc = sc from by unfold hUpd; rw [if_neg hH]]

theorem blurIter_succ_def (buf : List Nat) (index ip c bpp w len : Int)
    (fuel : Nat) (i : Int) (sc : Nat × Nat) :
    blurIter buf index ip c bpp w len (fuel + 1) i sc =
      blurStep buf index ip c bpp w len i sc >>= fun sc2 =>
        blurIter buf index ip c bpp w len fuel (i + 1) sc2 := rfl

theorem windowGo_succ (buf : List Nat) (w h ip c : Nat) (fuel : Nat) (j : Int)
    (sc : Nat × Nat) :
    windowGo buf w h ip c (fuel + 1) j sc =
      windowGo buf w h ip c fuel (j + 1) (stepUpd buf w h ip c j sc) := rfl

theorem windowGoV_succ (buf : List Nat) (w ip c : Nat) (fuel : Nat) (j : Int)
    (sc : Nat × Nat) :
    windowGoV buf w ip c (fuel + 1) j sc =
      windowGoV buf w ip c fuel (j + 1) (vUpd buf w ip c j sc) := rfl

/-- The whole `for i in -radius..=radius` loop of `blur_rgba` either
overflows or accumulates exactly `windowGo`. -/
theorem blurIter_cases (buf : List Nat) (w h ip c r : Nat)
    (hw : 1 ≤ w) (hh : 1 ≤ h) (hlen : buf.length = w * h * 4)
    (hip : ip < w * h) (hc : c < 4)
    (hlenM : ((buf.length : Nat) : Int) ≤ 2147483647)
    (hrM : ((r : Nat) : Int) ≤ 2147483647) :
    ∀ (fuel : Nat) (j : Int), -(r : Int) ≤ j → j + fuel ≤ (r : Int) + 1 →
    ∀ sc : Nat × Nat,
    blurIter buf ((c : Int) + (ip : Int) * 4) (ip : Int) (c : Int) 4 (w : Int)
        ((buf.length : Nat) : Int) fuel j sc = .err .OverflowError ∨
    blurIter buf ((c : Int) + (ip : Int) * 4) (ip : Int) (c : Int) 4 (w : Int)
        ((buf.length : Nat) : Int) fuel j sc =
      .ok (windowGo buf w h ip c fuel j sc) := by
  intro fuel
  induction fuel with
  | zero => intro j h1 h2 sc; right; rfl
  | succ n ih =>
    intro j hj1 hj2 sc
    have hj2' : j ≤ (r : Int) := by omega
    rcases blurStep_cases buf w h ip c r hw hh hlen hip hc hlenM hrM j hj1
        hj2' sc with hE | hOk
    · left
      rw [blurIter_succ_def, hE, err_bind]
    · rcases ih (j + 1) (by omega) (by omega)
          (stepUpd buf w h ip c j sc) with hE2 | hOk2
      · left
        rw [blurIter_succ_def, hOk, ok_bind, hE2]
      · right
        rw [blurIter_succ_def, hOk, ok_bind, hOk2, windowGo_succ]

/-- `blur_rgba`, on the in-range arguments the blur loop supplies, either
reports an overflow or returns the characterised window mean together with
the central byte index `4*index_pixel + channel`. -/
theorem blur_rgba_cases (buf : List Nat) (w h ip c r : Nat)
    (hw : 1 ≤ w) (hh : 1 ≤ h) (hlen : buf.length = w * h * 4)
    (hip : ip < w * h) (hc : c < 4) (hr : 1 ≤ r)
    (hlenM : buf.length ≤ 2147483647) (hrM : r ≤ 2147483647) :
    blur_rgba buf ip w h 4 r c = .err .OverflowError ∨
    blur_rgba buf ip w h 4 r c =
      .ok ((blurWindow buf w h ip c r).1 / (blurWindow buf w h ip c r).2,
        4 * ip + c) := by
  have hwle : w ≤ w * h := Nat.le_mul_of_pos_right w hh
  have hipM : (ip : Int) ≤ 2147483647 := by omega
  have hrM' : (r : Int) ≤ 2147483647 := by omega
  have hcM : (c : Int) ≤ 2147483647 := by omega
  have hwM : (w : Int) ≤ 2147483647 := by omega
  have hlenM' : (buf.length : Int) ≤ 2147483647 := by omega
  unfold blur_rgba
  rw [if_neg (by omega), if_neg (by omega)]
  rw [tryIntoI32_ok ip hipM, ok_bind, tryIntoI32_ok r hrM', ok_bind,
    tryIntoI32_ok c hcM, ok_bind, show tryIntoI32 4 = .ok 4 from rfl, ok_bind,
    tryIntoI32_ok w hwM, ok_bind, tryIntoI32_ok buf.length hlenM', ok_bind]
  rw [checked_mul_i32_some (ip : Int) 4 (by omega) (by omega), orOverflow_some]
  rw [wrap_i32_eq_self ((c : Int) + (ip : Int) * 4) (by omega) (by omega)]
  have hfuel : (2 * (r : Int) + 1).toNat = 2 * r + 1 := by omega
  rw [hfuel]
  have hcast : cast_i32_usize ((c : Int) + (ip : Int) * 4) = 4 * ip + c := by
    unfold cast_i32_usize
    rw [USIZE_eq]
    omega
  rcases blurIter_cases buf w h ip c r hw hh hlen hip hc hlenM' hrM'
      (2 * r + 1) (-(r : Int)) (by omega) (by omega) (0, 0) with hE | hOk
  · left
    rw [hE, err_bind]
  · right
    rw [hOk, ok_bind, hcast]
    unfold blurWindow
    rfl

theorem hUpd_count_le (buf : List Nat) (w h ip c : Nat) (j : Int)
    (sc : Nat × Nat) : sc.2 ≤ (hUpd buf w h ip c j sc).2 := by
  unfold hUpd
  split
  · exact Nat.le_succ _
  · exact Nat.le_refl _

theorem vUpd_count_le (buf : List Nat) (w ip c : Nat) (j : Int)
    (sc : Nat × Nat) : sc.2 ≤ (vUpd buf w ip c j sc).2 := by
  unfold vUpd
  split
  · exact Nat.le_succ _
  · exact Nat.le_refl _

theorem stepUpd_count_le (buf : List Nat) (w h ip c : Nat) (j : Int)
    (sc : Nat × Nat) : sc.2 ≤ (stepUpd buf w h ip c j sc).2 :=
  le_trans (hUpd_count_le buf w h ip c j sc)
    (vUpd_count_le buf w ip c j (hUpd buf w h ip c j sc))

theorem windowGo_count_mono (buf : List Nat) (w h ip c : Nat) :
    ∀ (fuel : Nat) (j : Int) (sc : Nat × Nat),
    sc.2 ≤ (windowGo buf w h ip c fuel j sc).2
  | 0, _, _ => Nat.le_refl _
  | fuel + 1, j, sc =>
    le_trans (stepUpd_count_le buf w h ip c j sc)
      (windowGo_count_mono buf w h ip c fuel (j + 1) _)

/-- If some loop index the window passes over is accepted by the column
branch, the final count is positive. -/
theorem windowGo_count_hit (buf : List Nat) (w h ip c : Nat) :
    ∀ (fuel : Nat) (j j0 : Int), j ≤ j0 → j0 < j + fuel →
    vIncl buf.length w ip c j0 = true →
    ∀ sc : Nat × Nat, sc.2 + 1 ≤ (windowGo buf w h ip c fuel j sc).2 := by
  intro fuel
  induction fuel with
  | zero => intro j j0 h1 h2 _ sc; omega
  | succ n ih =>
    intro j j0 h1 h2 hV sc
    rcases eq_or_lt_of_le h1 with rfl | hlt
    · rw [windowGo_succ]
      have h4 := hUpd_count_le buf w h ip c j sc
      have h5 : (stepUpd buf w h ip c j sc).2 =
          (hUpd buf w h ip c j sc).2 + 1 := by
        unfold stepUpd vUpd
        rw [if_pos hV]
      have h6 := windowGo_count_mono buf w h ip c n (j + 1)
          (stepUpd buf w h ip c j sc)
      omega
    · rw [windowGo_succ]
      have h3 := ih (j + 1) j0 (by omega) (by omega) hV
          (stepUpd buf w h ip c j sc)
      have h4 := stepUpd_count_le buf w h ip c j sc
      omega

/-- Every pixel/channel admits at least one accepted sample, so the count in
`blurWindow` is positive: `j = 0` is accepted by the column branch unless the
doubly channel-shifted centre offset falls off the end of the buffer, and in
that case `j = -1` is accepted. -/
theorem blurWindow_count_pos (buf : List Nat) (w h ip c r : Nat)
    (hw : 1 ≤ w) (hh : 1 ≤ h) (hlen : buf.length = w * h * 4)
    (hip : ip < w * h) (hc : c < 4) (hr : 1 ≤ r) :
    1 ≤ (blurWindow buf w h ip c r).2 := by
  unfold blurWindow
  by_cases h0 : vIncl buf.length w ip c 0 = true
  · have hhit := windowGo_count_hit buf w h ip c (2 * r + 1) (-(r : Int)) 0
      (by omega) (by omega) h0 (0, 0)
    simpa using hhit
  · have h0' : ¬ (0 ≤ vOff w ip c 0 ∧ vOff w ip c 0 < (buf.length : Int)) := by
      intro hco
      refine h0 ?_
      simp only [vIncl, Bool.and_eq_true, decide_eq_true_eq]
      exact hco
    have hoff0 : vOff w ip c 0 = 4 * (ip : Int) + 2 * c := by
      unfold vOff; ring
    rw [hoff0] at h0'
    have hge : (buf.length : Int) ≤ 4 * ip + 2 * c := by omega
    have hwle : w ≤ w * h := Nat.le_mul_of_pos_right w hh
    have hm1 : vIncl buf.length w ip c (-1) = true := by
      simp only [vIncl, Bool.and_eq_true, decide_eq_true_eq]
      unfold vOff
      constructor
      · omega
      · omega
    have hhit := windowGo_count_hit buf w h ip c (2 * r + 1) (-(r : Int)) (-1)
      (by omega) (by omega) hm1 (0, 0)
    simpa using hhit

theorem hIncl_bottom_false (w h ip : Nat) (hbot : ¬ ip / w + 1 < h) (j : Int) :
    hIncl w h ip j = false := by
  unfold hIncl
  simp [hbot]

theorem hUpd_bottom (buf : List Nat) (w h ip c : Nat)
    (hbot : ¬ ip / w + 1 < h) (j : Int) (sc : Nat × Nat) :
    hUpd buf w h ip c j sc = sc := by
  unfold hUpd
  rw [hIncl_bottom_false w h ip hbot j]
  rfl

theorem windowGo_bottom (buf : List Nat) (w h ip c : Nat)
    (hbot : ¬ ip / w + 1 < h) :
    ∀ (fuel : Nat) (j : Int) (sc : Nat × Nat),
    windowGo buf w h ip c fuel j sc = windowGoV buf w ip c fuel j sc
  | 0, _, _ => rfl
  | fuel + 1, j, sc => by
    rw [windowGo_succ, windowGoV_succ]
    rw [show stepUpd buf w h ip c j sc = vUpd buf w ip c j sc from by
      unfold stepUpd; rw [hUpd_bottom buf w h ip c hbot j sc]]
    exact windowGo_bottom buf w h ip c hbot fuel (j + 1) _

/-- C2, corrected.  For in-range arguments, each `blur_rgba` call either
reports `OverflowError` or returns the floor mean over the window it actually
samples (`blurWindow`): the same-row branch accepts `index_pixel + j` only
inside the pixel's own row *and* only when that row is not the bottom row;
the column branch offsets the channel twice (`4*ip + 2*c + 4*w*j`) and also
accepts the centre `j = 0`; the divisor is the number of accepted samples,
the write index is `4*index_pixel + channel`. -/
theorem blur_rgba_computes_window_mean (buf : List Nat) (w h ip c r : Nat)
    (hw : 1 ≤ w) (hh : 1 ≤ h) (hlen : buf.length = w * h * 4)
    (hip : ip < w * h) (hc : c < 4) (hr : 1 ≤ r)
    (hlenM : buf.length ≤ 2147483647) (hrM : r ≤ 2147483647) :
    blur_rgba buf ip w h 4 r c = .err .OverflowError ∨
    blur_rgba buf ip w h 4 r c =
      .ok ((blurWindow buf w h ip c r).1 / (blurWindow buf w h ip c r).2,
        4 * ip + c) :=
  blur_rgba_cases buf w h ip c r hw hh hlen hip hc hr hlenM hrM

theorem blur_rgba_computes_window_mean_witness :
    1 ≤ (1 : Nat) ∧
    (blur_rgba testBuf16 1 2 2 4 1 1 = .err .OverflowError ∨
     blur_rgba testBuf16 1 2 2 4 1 1 =
       .ok ((blurWindow testBuf16 2 2 1 1 1).1 /
         (blurWindow testBuf16 2 2 1 1 1).2, 4 * 1 + 1)) :=
  ⟨by decide, blur_rgba_computes_window_mean testBuf16 2 2 1 1 1 (by decide)
    (by decide) (by decide) (by decide) (by decide) (by decide) (by decide)
    (by decide)⟩

/-- C9.  For a buffer of the asserted length, `index_pixel < width*height`,
`channel < 4`, `radius ≥ 1` (with everything in `i32` range), whenever
`blur_rgba` does not report an overflow it returns `Ok`: no read panicked (a
panic would be a `panicked` result, not an `ok`), the count of accepted
samples is at least 1 (so the mean is not 0/0), and the returned write index
is `4*index_pixel + channel`, which is in bounds. -/
theorem blur_rgba_safe (buf : List Nat) (w h ip c r : Nat)
    (hw : 1 ≤ w) (hh : 1 ≤ h) (hlen : buf.length = w * h * 4)
    (hip : ip < w * h) (hc : c < 4) (hr : 1 ≤ r)
    (hlenM : buf.length ≤ 2147483647) (hrM : r ≤ 2147483647)
    (hok : (blur_rgba buf ip w h 4 r c).isErr = false) :
    blur_rgba buf ip w h 4 r c =
      .ok ((blurWindow buf w h ip c r).1 / (blurWindow buf w h ip c r).2,
        4 * ip + c) ∧
    4 * ip + c < buf.length ∧ 1 ≤ (blurWindow buf w h ip c r).2 := by
  rcases blur_rgba_cases buf w h ip c r hw hh hlen hip hc hr hlenM hrM
      with hE | hOk
  · rw [hE] at hok
    exact absurd hok (by simp [RustResult.isErr])
  · exact ⟨hOk, by omega,
      blurWindow_count_pos buf w h ip c r hw hh hlen hip hc hr⟩

theorem blur_rgba_safe_witness :
    (blur_rgba testBuf16 0 2 2 4 1 0).isErr = false ∧
    (blur_rgba testBuf16 0 2 2 4 1 0 =
      .ok ((blurWindow testBuf16 2 2 0 0 1).1 /
        (blurWindow testBuf16 2 2 0 0 1).2, 4 * 0 + 0) ∧
    4 * 0 + 0 < testBuf16.length ∧ 1 ≤ (blurWindow testBuf16 2 2 0 0 1).2) :=
  ⟨by decide, blur_rgba_safe testBuf16 2 2 0 0 1 (by decide) (by decide)
    (by decide) (by decide) (by decide) (by decide) (by decide) (by decide)
    (by decide)⟩

/-- C10.  For any pixel in the bottom row (`width*(height-1) ≤ index_pixel <
width*height`), the row-window acceptance test rejects every loop index
(`right < buff_len` fails for the whole bottom row), so the accumulated
window degenerates to the column-branch-only `blurWindowV`. -/
theorem blur_bottom_row_has_no_row_samples (buf : List Nat)
    (w h ip c r : Nat) (j : Int) (hw : 1 ≤ w)
    (hbotrow : w * (h - 1) ≤ ip) (hip : ip < w * h) :
    hIncl w h ip j = false ∧
    blurWindow buf w h ip c r = blurWindowV buf w ip c r := by
  have hq2 : ip / w < h := Nat.div_lt_of_lt_mul hip
  have hcomm : (h - 1) * w = w * (h - 1) := Nat.mul_comm _ _
  have hq1 : h - 1 ≤ ip / w := (Nat.le_div_iff_mul_le hw).mpr (by omega)
  have hbot : ¬ ip / w + 1 < h := by omega
  refine ⟨hIncl_bottom_false w h ip hbot j, ?_⟩
  unfold blurWindow blurWindowV
  exact windowGo_bottom buf w h ip c hbot (2 * r + 1) (-(r : Int)) (0, 0)

theorem blur_bottom_row_has_no_row_samples_witness :
    2 * (2 - 1) ≤ 2 ∧
    (hIncl 2 2 2 0 = false ∧
     blurWindow testBuf16 2 2 2 3 1 = blurWindowV testBuf16 2 2 3 1) :=
  ⟨by decide, blur_bottom_row_has_no_row_samples testBuf16 2 2 2 3 1 0
    (by decide) (by decide) (by decide)⟩

end BlurPlugin

/-- C8, corrected.  The offset arithmetic the engines do check fails loudly:
`blur_rgba` returns `OverflowError` when its central byte-offset
multiplication `index_pixel * byte_per_pixel` overflows `i32`, and both
mirror flips return early (leaving the buffer as-is) when the row size
`width * 4` overflows `usize`.  Not all offset arithmetic is checked,
however: the horizontal flip computes its row start `y * row_size` with an
unchecked, wrapping `usize` multiplication (see the counterexample
theorem on `horizRowStart`), and the blur loop's interior additions wrap in
`i32`. -/
theorem checked_offset_overflows_error :
    (∀ (buf : List Nat) (w h ip c r : Nat),
      buf.length = w * h * 4 → 1 ≤ r →
      (ip : Int) ≤ 2147483647 → (r : Int) ≤ 2147483647 →
      (c : Int) ≤ 2147483647 → (w : Int) ≤ 2147483647 →
      (buf.length : Int) ≤ 2147483647 →
      2147483647 < (ip : Int) * 4 →
      BlurPlugin.blur_rgba buf ip w h 4 r c = .err .OverflowError) ∧
    (∀ (w h : Nat) (buf : List Nat), ¬ w * 4 < USIZE →
      MirrorPlugin.verticalFlip w h buf = .error buf) ∧
    (∀ (w h : Nat) (buf : List Nat), ¬ w * 4 < USIZE →
      MirrorPlugin.horizontalFlip w h buf = .error buf) := by
  refine ⟨?_, ?_, ?_⟩
  · intro buf w h ip c r hlen hr hipM hrM hcM hwM hlenM hover
    unfold BlurPlugin.blur_rgba
    rw [if_neg (by omega), if_neg (by omega)]
    rw [tryIntoI32_ok ip hipM, ok_bind, tryIntoI32_ok r hrM, ok_bind,
      tryIntoI32_ok c hcM, ok_bind, show tryIntoI32 4 = .ok 4 from rfl,
      ok_bind, tryIntoI32_ok w hwM, ok_bind,
      tryIntoI32_ok buf.length hlenM, ok_bind]
    rw [checked_mul_i32_none (ip : Int) 4 (by omega)]
    exact BlurPlugin.orOverflow_none _
  · intro w h buf hbig
    unfold MirrorPlugin.verticalFlip
    rw [show checked_mul_usize w 4 = none from by
      unfold checked_mul_usize; rw [if_neg hbig]]
  · intro w h buf hbig
    unfold MirrorPlugin.horizontalFlip
    rw [show checked_mul_usize w 4 = none from by
      unfold checked_mul_usize; rw [if_neg hbig]]

theorem checked_offset_overflows_error_witness :
    BlurPlugin.blur_rgba [0, 0, 0, 0] 536870912 1 1 4 1 0 =
      .err .OverflowError ∧
    MirrorPlugin.verticalFlip 4611686018427387904 2 [] = .error [] ∧
    MirrorPlugin.horizontalFlip 4611686018427387904 2 [] = .error [] :=
  ⟨checked_offset_overflows_error.1 [0, 0, 0, 0] 1 1 536870912 0 1 (by decide)
    (by decide) (by decide) (by decide) (by decide) (by decide) (by decide)
    (by decide),
   checked_offset_overflows_error.2.1 4611686018427387904 2 [] (by decide),
   checked_offset_overflows_error.2.2 4611686018427387904 2 [] (by decide)⟩
